import Mathlib

/-!
Verification of the `findimpls` package: given a loaded, type-checked Go
program, `Find` locates a named interface and, for every loaded package,
records every non-interface type definition that implements the interface
(in value or pointer form) together with the syntactic declaration of each
requested method.

The embedding translates the source functions (`Find`, `findInterface`,
`findInterfaceImplementations`, `loadPkgTypeMethodASTs`,
`findMethodDeclAST`, `pkgMethodBodyDecls`) into Lean.  External facilities
from the Go toolchain (`packages.Load`, `types.Implements`,
`types.LookupFieldOrMethod`) are not part of this repository; they are
modelled at the interface boundary the spec gives for them.  Go maps are
modelled as association lists with overwrite-on-insert; Go `panic`
(nil-pointer dereference or failed type assertion) is modelled as an
explicit `panic` outcome / `none` result.
-/

set_option autoImplicit false

namespace Findimpls

/-- A method as it appears in a method set: name plus an identity for its
signature (two methods match when both name and signature identity agree). -/
structure GoMethod where
  name : String
  sig : Nat
deriving DecidableEq

/-- Result of `types.LookupFieldOrMethod`: either a method (`*types.Func`,
carrying its `Scope().Pos()`), or a plain struct field. -/
inductive LookupResult where
  | func (scopePos : Nat)
  | field
deriving DecidableEq

/-- Model of a named Go type (`*types.Named`).
`underlyingIsInterface` is whether `Underlying()` is a `*types.Interface`;
`ifaceMethods` is that interface's method set when it is.
`valueMethods` / `ptrMethods` are the method sets of `T` and `*T`
(promoted methods included), as the external type checker computes them.
`members` models `types.LookupFieldOrMethod` with `addressable = true`:
the resolved member table, identical for `T` and `*T`. -/
structure GoType where
  name : String
  underlyingIsInterface : Bool
  ifaceMethods : List GoMethod
  valueMethods : List GoMethod
  ptrMethods : List GoMethod
  members : List (String × LookupResult)
deriving DecidableEq

/-- A `types.Type` as used in the result: a named type in value form, or the
`types.NewPointer` of one. -/
inductive TypeForm where
  | value (t : GoType)
  | ptr (t : GoType)
deriving DecidableEq

/-- One entry of `pkg.TypesInfo.Defs`: the defining identifier (possibly nil,
possibly without an `ast.Object`, of some `ast.ObjKind`) and the type of the
object it defines. -/
structure DefEntry where
  hasIdent : Bool
  hasObj : Bool
  kindIsTyp : Bool
  name : String
  typ : GoType
deriving DecidableEq

/-- An `*ast.FuncDecl`: whether it has a receiver, and `Body.Pos()` when the
body is present (`none` models `Body == nil`). -/
structure AstFuncDecl where
  hasRecv : Bool
  bodyPos : Option Nat
deriving DecidableEq

/-- A top-level declaration of a source file: a function declaration or
anything else. -/
inductive AstDecl where
  | funcDecl (fd : AstFuncDecl)
  | other
deriving DecidableEq

/-- One `*ast.File` of `pkg.Syntax`. -/
structure AstFile where
  decls : List AstDecl
deriving DecidableEq

/-- A loaded `*packages.Package`: import path `ID`, `TypesInfo.Defs` and the
`Syntax` file list (field `astFiles`). -/
structure Package where
  id : String
  defs : List DefEntry
  astFiles : List AstFile
deriving DecidableEq

/-- `packages.Config`: the load `Mode` bitmask and the `Fset` pointer
(`none` models a nil `*token.FileSet`, `some f` an existing one). -/
structure Config where
  mode : Nat
  fset : Option Nat
deriving DecidableEq

/-- The caller's `Query`. `loadConfig` is the state of the `*packages.Config`
pointee (`none` models a nil `LoadConfig` pointer). -/
structure Query where
  loadConfig : Option Config
  packages : List String
  interfacePackage : String
  interfaceName : String
  methods : List String
deriving DecidableEq

/-- Modelled from the spec: the error of the external `packages.Load`
facility names the offending package (`LoadError` names the package that
could not be found, parsed or type-checked). -/
structure LoadErr where
  pkg : String
  msg : String
deriving DecidableEq

/-- Modelled from the spec: `packages.Load` — the external loader takes the
(mode-augmented) config and the package patterns and either produces the
loaded packages or fails with an error naming the offending package. -/
def LoadFn : Type := Config → List String → Except LoadErr (List Package)

/-- The structured content of the errors `Find` and its helpers build with
`fmt.Errorf`; each constructor records exactly the identifying data the
corresponding format string interpolates. -/
inductive FindErr where
  | loadFailed (e : LoadErr)
  | ifacePkgNotFound (pkgPath : String)
  | ifaceTypeNotFound (ifaceName : String) (pkgPath : String)
  | methodNotFound (methodName : String) (typeName : String)
  | fieldNotFunc (typeName : String)
  | declNotFound (methodName : String) (typeName : String)
deriving DecidableEq

/-- Which package an error names, when it names one. -/
def FindErr.namedPackage : FindErr → Option String
  | .loadFailed e => some e.pkg
  | .ifacePkgNotFound p => some p
  | .ifaceTypeNotFound _ p => some p
  | _ => none

/-- `ResultMethods`: Go map from method name to `*ast.FuncDecl`. -/
def ResultMethods : Type := List (String × AstFuncDecl)

/-- `ResultTypes`: Go map from implementing type to its methods. -/
def ResultTypes : Type := List (TypeForm × ResultMethods)

/-- `ResultPackages`: Go map from loaded package to its result. -/
def ResultPackages : Type := List (Package × ResultTypes)

instance : DecidableEq ResultMethods := by unfold ResultMethods; infer_instance
instance : DecidableEq ResultTypes := by unfold ResultTypes; infer_instance
instance : DecidableEq ResultPackages := by unfold ResultPackages; infer_instance

/-- Outcome of a run of `Find`: a Go panic (nil dereference or failed type
assertion), an error return, or a successful result. -/
inductive FindOutcome where
  | panic
  | err (e : FindErr)
  | ok (res : ResultPackages)
deriving DecidableEq

/-- Go map lookup on the association-list model. -/
def mapLookup {α β : Type} [DecidableEq α] : List (α × β) → α → Option β
  | [], _ => none
  | (k, v) :: rest, a => if k = a then some v else mapLookup rest a

/-- Go map assignment `m[k] = v` on the association-list model: replace the
existing binding of `k` if there is one, otherwise append. -/
def mapInsert {α β : Type} [DecidableEq α] : List (α × β) → α → β → List (α × β)
  | [], k, v => [(k, v)]
  | (k0, v0) :: rest, k, v =>
    if k0 = k then (k, v) :: rest else (k0, v0) :: mapInsert rest k v

/-! Load mode bits of the external `golang.org/x/tools/go/packages` library. -/

def NeedName : Nat := 1
def NeedFiles : Nat := 2
def NeedImports : Nat := 8
def NeedDeps : Nat := 16
def NeedTypes : Nat := 64
def NeedSyn : Nat := 128
def NeedTypesInfo : Nat := 256

/-- The modes `Find` ORs into `query.LoadConfig.Mode` (source line 51). -/
def requiredLoadModes : Nat :=
  NeedDeps ||| NeedImports ||| NeedFiles ||| NeedName ||| NeedSyn |||
    NeedTypes ||| NeedTypesInfo

/-- Identity of the fresh `token.NewFileSet()` installed when `Fset` is nil. -/
def freshFset : Nat := 0

/-- The config state after `Find`'s preamble (source lines 50-54): required
modes ORed in, nil `Fset` replaced by a fresh file set. -/
def effectiveConfig (cfg : Config) : Config :=
  { mode := cfg.mode ||| requiredLoadModes
    fset := some (match cfg.fset with | none => freshFset | some f => f) }

/-- The check `ident != nil && ident.Obj != nil && ident.Obj.Kind == ast.Typ`
shared by `findInterface` and `findInterfaceImplementations`. -/
def isTypeDefEntry (e : DefEntry) : Bool :=
  e.hasIdent && e.hasObj && e.kindIsTyp

/-- The method set of a type form (value or pointer). -/
def methodSet : TypeForm → List GoMethod
  | .value t => t.valueMethods
  | .ptr t => t.ptrMethods

/-- Modelled from the spec: the external `types.Implements` — a type
implements an interface iff every interface method is present in its method
set with matching name and signature. -/
def implementsB (tf : TypeForm) (iface : List GoMethod) : Bool :=
  iface.all fun im =>
    (methodSet tf).any fun tm => tm.name == im.name && tm.sig == im.sig

/-- The body of `findInterfaceImplementations`' loop for one `Defs` entry:
skip non-type-definition entries and interfaces, record the value form if it
implements, else the pointer form if that implements, else nothing. -/
def implForm (iface : List GoMethod) (e : DefEntry) : Option TypeForm :=
  if isTypeDefEntry e then
    if e.typ.underlyingIsInterface then none
    else if implementsB (TypeForm.value e.typ) iface then
      some (TypeForm.value e.typ)
    else if implementsB (TypeForm.ptr e.typ) iface then
      some (TypeForm.ptr e.typ)
    else none
  else none

/-- `findInterfaceImplementations` (source lines 110-127): collect, over the
package's `Defs` entries, each non-interface type definition in the form that
implements the interface.  (The Go function also returns an `error`, but it
is always nil.) -/
def findInterfaceImplementations (iface : List GoMethod) (pkg : Package) :
    List TypeForm :=
  pkg.defs.filterMap (implForm iface)

/-- `findInterface` (source lines 81-107): find the first loaded package whose
`ID` equals the import path, then the first `Defs` entry that is a type
definition with the requested name. -/
def findInterface (loadedPkgs : List Package)
    (ifaceImportPath ifaceName : String) : Except FindErr GoType :=
  match loadedPkgs.find? (fun p => p.id == ifaceImportPath) with
  | none => Except.error (FindErr.ifacePkgNotFound ifaceImportPath)
  | some ifacePkg =>
    match ifacePkg.defs.find?
        (fun e => isTypeDefEntry e && e.name == ifaceName) with
    | none => Except.error (FindErr.ifaceTypeNotFound ifaceName ifaceImportPath)
    | some entry => Except.ok entry.typ

/-- `impl.String()`: the name of the type, with a `*` prefixed for the
pointer form. -/
def typeString : TypeForm → String
  | .value t => t.name
  | .ptr t => "*" ++ t.name

/-- The named type behind a form. -/
def baseType : TypeForm → GoType
  | .value t => t
  | .ptr t => t

/-- Modelled from the spec: the external `types.LookupFieldOrMethod` with
`addressable = true` resolves a member (promoted members included) on the
type; with addressability the resolved member table is the same for `T` and
`*T`. -/
def lookupFieldOrMethod (impl : TypeForm) (methodName : String) :
    Option LookupResult :=
  mapLookup (baseType impl).members methodName

/-- `findMethodDeclAST` (source lines 148-163).  (The Go function also takes
the package, used only as the lookup context `pkg.Types`, which the member
table already accounts for.) -/
def findMethodDeclAST (impl : TypeForm) (methodName : String)
    (pkgMethodDecls : List (Nat × AstFuncDecl)) : Except FindErr AstFuncDecl :=
  match lookupFieldOrMethod impl methodName with
  | none => Except.error (FindErr.methodNotFound methodName (typeString impl))
  | some LookupResult.field => Except.error (FindErr.fieldNotFunc (typeString impl))
  | some (LookupResult.func scopePos) =>
    match mapLookup pkgMethodDecls scopePos with
    | none => Except.error (FindErr.declNotFound methodName (typeString impl))
    | some d => Except.ok d

/-- One step of `pkgMethodBodyDecls`' inner loop: for a function declaration
with a receiver, index it by `Body.Pos()`; a nil `Body` (`bodyPos = none`)
is a nil-pointer dereference, modelled as `none` (panic). -/
def addDecl (acc : Option (List (Nat × AstFuncDecl))) (d : AstDecl) :
    Option (List (Nat × AstFuncDecl)) :=
  match acc with
  | none => none
  | some m =>
    match d with
    | AstDecl.funcDecl fd =>
      if fd.hasRecv then
        match fd.bodyPos with
        | none => none
        | some p => some (mapInsert m p fd)
      else some m
    | AstDecl.other => some m

/-- One step of `pkgMethodBodyDecls`' outer loop: fold a file's declarations. -/
def addFile (acc : Option (List (Nat × AstFuncDecl))) (f : AstFile) :
    Option (List (Nat × AstFuncDecl)) :=
  f.decls.foldl addDecl acc

/-- `pkgMethodBodyDecls` (source lines 165-176): index every method
declaration of the package's files by its body position.  `none` models the
panic on a body-less method declaration. -/
def pkgMethodBodyDecls (pkg : Package) : Option (List (Nat × AstFuncDecl)) :=
  pkg.astFiles.foldl addFile (some [])

/-- The method index of a package when it exists (used to phrase theorems;
meaningful under the hypothesis that `pkgMethodBodyDecls` does not panic). -/
def declsOf (pkg : Package) : List (Nat × AstFuncDecl) :=
  (pkgMethodBodyDecls pkg).getD []

/-- The inner loop of `loadPkgTypeMethodASTs` (source lines 137-143): resolve
every requested method name on one implementing type, failing fast. -/
def buildMethods (impl : TypeForm) (decls : List (Nat × AstFuncDecl)) :
    List String → ResultMethods → Except FindErr ResultMethods
  | [], rm => Except.ok rm
  | m :: rest, rm =>
    match findMethodDeclAST impl m decls with
    | Except.error e => Except.error e
    | Except.ok d => buildMethods impl decls rest (mapInsert rm m d)

/-- The outer loop of `loadPkgTypeMethodASTs` (source lines 135-144). -/
def buildTypes (methodNames : List String) (decls : List (Nat × AstFuncDecl)) :
    List TypeForm → ResultTypes → Except FindErr ResultTypes
  | [], result => Except.ok result
  | impl :: rest, result =>
    match buildMethods impl decls methodNames [] with
    | Except.error e => Except.error e
    | Except.ok rm => buildTypes methodNames decls rest (mapInsert result impl rm)

/-- `loadPkgTypeMethodASTs` (source lines 130-146): build the method index
first (which may panic, propagated as `none`), then resolve each impl. -/
def loadPkgTypeMethodASTs (impls : List TypeForm) (pkg : Package)
    (methodNames : List String) : Option (Except FindErr ResultTypes) :=
  match pkgMethodBodyDecls pkg with
  | none => none
  | some methodDecls => some (buildTypes methodNames methodDecls impls [])

/-- The per-package loop of `Find` (source lines 66-77).  The type assertion
`ifaceType.Underlying().(*types.Interface)` happens inside the loop, so a
non-interface underlying type panics only when at least one package is
processed. -/
def findPackages (ifaceType : GoType) (methods : List String) :
    List Package → ResultPackages → FindOutcome
  | [], result => FindOutcome.ok result
  | pkg :: rest, result =>
    if ifaceType.underlyingIsInterface then
      match loadPkgTypeMethodASTs
          (findInterfaceImplementations ifaceType.ifaceMethods pkg) pkg methods with
      | none => FindOutcome.panic
      | some (Except.error e) => FindOutcome.err e
      | some (Except.ok pkgResult) =>
        findPackages ifaceType methods rest (mapInsert result pkg pkgResult)
    else FindOutcome.panic

/-- `Find` (source lines 49-79).  The first component of the result is the
post-state of the caller's `Query` (the source mutates `LoadConfig.Mode` and
`LoadConfig.Fset` through the pointer); the second is the outcome.
Dereferencing a nil `LoadConfig` is a panic. -/
def Find (load : LoadFn) (query : Query) : Query × FindOutcome :=
  match query.loadConfig with
  | none => (query, FindOutcome.panic)
  | some cfg =>
    let cfg' := effectiveConfig cfg
    let query' := { query with loadConfig := some cfg' }
    match load cfg' query.packages with
    | Except.error e => (query', FindOutcome.err (FindErr.loadFailed e))
    | Except.ok loadedPkgs =>
      match findInterface loadedPkgs query.interfacePackage query.interfaceName with
      | Except.error e => (query', FindOutcome.err e)
      | Except.ok ifaceType =>
        (query', findPackages ifaceType query.methods loadedPkgs [])

/-! ### A concrete program, following the spec's worked scenario:
interface `Shape` in package `geo` with method `Area`; package `shapes`
defines `Circle` (value-receiver `Area`), `Square` (pointer-receiver `Area`)
and a second interface `Named`. -/

def areaM : GoMethod := { name := "Area", sig := 1 }

def circleT : GoType :=
  { name := "Circle", underlyingIsInterface := false, ifaceMethods := []
    valueMethods := [areaM], ptrMethods := [areaM]
    members := [("Area", LookupResult.func 10)] }

def squareT : GoType :=
  { name := "Square", underlyingIsInterface := false, ifaceMethods := []
    valueMethods := [], ptrMethods := [areaM]
    members := [("Area", LookupResult.func 20)] }

def namedT : GoType :=
  { name := "Named", underlyingIsInterface := true
    ifaceMethods := [{ name := "Name", sig := 2 }]
    valueMethods := [], ptrMethods := [], members := [] }

def shapeT : GoType :=
  { name := "Shape", underlyingIsInterface := true, ifaceMethods := [areaM]
    valueMethods := [], ptrMethods := [], members := [] }

def entryOf (t : GoType) : DefEntry :=
  { hasIdent := true, hasObj := true, kindIsTyp := true, name := t.name, typ := t }

def circleAreaDecl : AstFuncDecl := { hasRecv := true, bodyPos := some 10 }
def squareAreaDecl : AstFuncDecl := { hasRecv := true, bodyPos := some 20 }

def geoPkg : Package := { id := "geo", defs := [entryOf shapeT], astFiles := [] }

def shapesPkg : Package :=
  { id := "shapes"
    defs := [entryOf circleT, entryOf squareT, entryOf namedT]
    astFiles := [{ decls := [AstDecl.funcDecl circleAreaDecl,
                             AstDecl.funcDecl squareAreaDecl] }] }

def gPkgs : List Package := [geoPkg, shapesPkg]
def gCfg : Config := { mode := 0, fset := none }
def gLoad : LoadFn := fun _ _ => Except.ok gPkgs

def gQuery : Query :=
  { loadConfig := some gCfg, packages := ["geo", "shapes"]
    interfacePackage := "geo", interfaceName := "Shape", methods := ["Area"] }

/-- The per-type result `Find` computes for the `shapes` package. -/
def gRtShapes : ResultTypes :=
  [(TypeForm.value circleT, [("Area", circleAreaDecl)]),
   (TypeForm.ptr squareT, [("Area", squareAreaDecl)])]

/-- The full result of `Find` on the scenario. -/
def gRes : ResultPackages := [(geoPkg, []), (shapesPkg, gRtShapes)]

/-- Sanity: on the worked scenario, `Find` returns exactly the spec's expected
result — `geo` maps to nothing, `shapes` maps `Circle` (value form) and
`*Square` (pointer form) to their `Area` declarations. -/
theorem gScenario_result : (Find gLoad gQuery).2 = FindOutcome.ok gRes := by
  decide

/-- A package whose syntax holds a body-less method declaration (e.g. an
assembly-backed method): indexing it panics. -/
def badPkg : Package :=
  { id := "bad", defs := []
    astFiles := [{ decls := [AstDecl.funcDecl { hasRecv := true, bodyPos := none }] }] }

/-! ### Helper lemmas about the association-list model of Go maps -/

theorem mapLookup_insert_self {α β : Type} [DecidableEq α]
    (m : List (α × β)) (k : α) (v : β) :
    mapLookup (mapInsert m k v) k = some v := by
  induction m with
  | nil => simp [mapInsert, mapLookup]
  | cons hd tl ih =>
    obtain ⟨k0, v0⟩ := hd
    by_cases h : k0 = k
    · simp [mapInsert, h, mapLookup]
    · simp [mapInsert, h, mapLookup, ih]

theorem mapLookup_insert_ne {α β : Type} [DecidableEq α]
    (m : List (α × β)) (k k' : α) (v : β) (h : k' ≠ k) :
    mapLookup (mapInsert m k v) k' = mapLookup m k' := by
  have hk : ¬ k = k' := fun h2 => h h2.symm
  induction m with
  | nil => simp only [mapInsert, mapLookup, if_neg hk]
  | cons hd tl ih =>
    obtain ⟨k0, v0⟩ := hd
    by_cases h0 : k0 = k
    · subst h0
      simp only [mapInsert, if_pos rfl, mapLookup, if_neg hk]
    · simp only [mapInsert, if_neg h0, mapLookup]
      by_cases h1 : k0 = k'
      · simp only [if_pos h1]
      · simp only [if_neg h1, ih]

theorem mapLookup_mem {α β : Type} [DecidableEq α]
    {m : List (α × β)} {k : α} {v : β} (h : mapLookup m k = some v) :
    (k, v) ∈ m := by
  induction m with
  | nil => simp [mapLookup] at h
  | cons hd tl ih =>
    obtain ⟨k0, v0⟩ := hd
    by_cases h0 : k0 = k
    · subst h0
      simp [mapLookup] at h
      simp [h]
    · simp only [mapLookup, if_neg h0] at h
      exact List.mem_cons_of_mem _ (ih h)

theorem mem_mapInsert {α β : Type} [DecidableEq α]
    {m : List (α × β)} {k : α} {v : β} {k' : α} {v' : β}
    (h : (k', v') ∈ mapInsert m k v) :
    (k', v') ∈ m ∨ (k' = k ∧ v' = v) := by
  induction m with
  | nil =>
    simp [mapInsert] at h
    exact Or.inr h
  | cons hd tl ih =>
    obtain ⟨k0, v0⟩ := hd
    by_cases h0 : k0 = k
    · simp only [mapInsert, if_pos h0] at h
      rcases List.mem_cons.mp h with h1 | h1
      · right
        exact Prod.mk.injEq .. ▸ h1
      · exact Or.inl (List.mem_cons_of_mem _ h1)
    · simp only [mapInsert, if_neg h0] at h
      rcases List.mem_cons.mp h with h1 | h1
      · exact Or.inl (List.mem_cons.mpr (Or.inl h1))
      · rcases ih h1 with h2 | h2
        · exact Or.inl (List.mem_cons_of_mem _ h2)
        · exact Or.inr h2

theorem mapLookup_isSome_insert {α β : Type} [DecidableEq α]
    (m : List (α × β)) (k k' : α) (v : β)
    (h : (mapLookup m k').isSome = true) :
    (mapLookup (mapInsert m k v) k').isSome = true := by
  by_cases hk : k' = k
  · subst hk; rw [mapLookup_insert_self]; rfl
  · rw [mapLookup_insert_ne m k k' v hk]; exact h

/-! ### Shape of `findMethodDeclAST` results -/

theorem findMethodDeclAST_error_shape {impl : TypeForm} {m : String}
    {decls : List (Nat × AstFuncDecl)} {e : FindErr}
    (h : findMethodDeclAST impl m decls = Except.error e) :
    (lookupFieldOrMethod impl m = none ∧
      e = FindErr.methodNotFound m (typeString impl)) ∨
    (lookupFieldOrMethod impl m = some LookupResult.field ∧
      e = FindErr.fieldNotFunc (typeString impl)) ∨
    (∃ p, lookupFieldOrMethod impl m = some (LookupResult.func p) ∧
      mapLookup decls p = none ∧
      e = FindErr.declNotFound m (typeString impl)) := by
  unfold findMethodDeclAST at h
  split at h
  case _ hl =>
    simp only [Except.error.injEq] at h
    exact Or.inl ⟨hl, h.symm⟩
  case _ hl =>
    simp only [Except.error.injEq] at h
    exact Or.inr (Or.inl ⟨hl, h.symm⟩)
  case _ p hl =>
    split at h
    case _ hd =>
      simp only [Except.error.injEq] at h
      exact Or.inr (Or.inr ⟨p, hl, hd, h.symm⟩)
    case _ d hd => cases h

theorem findMethodDeclAST_ok_shape {impl : TypeForm} {m : String}
    {decls : List (Nat × AstFuncDecl)} {d : AstFuncDecl}
    (h : findMethodDeclAST impl m decls = Except.ok d) :
    ∃ p, lookupFieldOrMethod impl m = some (LookupResult.func p) ∧
      mapLookup decls p = some d := by
  unfold findMethodDeclAST at h
  split at h
  case _ hl => cases h
  case _ hl => cases h
  case _ p hl =>
    split at h
    case _ hd => cases h
    case _ d0 hd =>
      simp only [Except.ok.injEq] at h
      exact ⟨p, hl, h ▸ hd⟩

/-! ### Lemmas about the method loop `buildMethods` -/

theorem buildMethods_error {impl : TypeForm} {decls : List (Nat × AstFuncDecl)}
    {ms : List String} {acc : ResultMethods} {e : FindErr}
    (h : buildMethods impl decls ms acc = Except.error e) :
    ∃ m ∈ ms, findMethodDeclAST impl m decls = Except.error e := by
  induction ms generalizing acc with
  | nil => cases h
  | cons m0 rest ih =>
    unfold buildMethods at h
    cases hf : findMethodDeclAST impl m0 decls with
    | error e0 =>
      rw [hf] at h
      simp only [Except.error.injEq] at h
      exact ⟨m0, List.mem_cons_self m0 rest, h ▸ hf⟩
    | ok d =>
      rw [hf] at h
      obtain ⟨m', hm', he⟩ := ih h
      exact ⟨m', List.mem_cons_of_mem _ hm', he⟩

theorem buildMethods_ok_all {impl : TypeForm} {decls : List (Nat × AstFuncDecl)}
    {ms : List String} {acc rm : ResultMethods}
    (h : buildMethods impl decls ms acc = Except.ok rm) :
    ∀ m ∈ ms, ∃ d, findMethodDeclAST impl m decls = Except.ok d := by
  induction ms generalizing acc with
  | nil => intro m hm; cases hm
  | cons m0 rest ih =>
    unfold buildMethods at h
    cases hf : findMethodDeclAST impl m0 decls with
    | error e0 => rw [hf] at h; cases h
    | ok d =>
      rw [hf] at h
      intro m hm
      rcases List.mem_cons.mp hm with h1 | h1
      · exact ⟨d, h1 ▸ hf⟩
      · exact ih h m h1

theorem buildMethods_ok_lookup {impl : TypeForm} {decls : List (Nat × AstFuncDecl)}
    {ms : List String} {acc rm : ResultMethods}
    (h : buildMethods impl decls ms acc = Except.ok rm)
    {m : String} {d : AstFuncDecl} (hm : mapLookup rm m = some d) :
    mapLookup acc m = some d ∨
      (m ∈ ms ∧ findMethodDeclAST impl m decls = Except.ok d) := by
  induction ms generalizing acc with
  | nil =>
    unfold buildMethods at h
    simp only [Except.ok.injEq] at h
    exact Or.inl (h ▸ hm)
  | cons m0 rest ih =>
    unfold buildMethods at h
    cases hf : findMethodDeclAST impl m0 decls with
    | error e0 => rw [hf] at h; cases h
    | ok d0 =>
      rw [hf] at h
      rcases ih h with h1 | h1
      · by_cases hm0 : m = m0
        · subst hm0
          rw [mapLookup_insert_self] at h1
          injection h1 with h2
          exact Or.inr ⟨List.mem_cons_self m rest, h2 ▸ hf⟩
        · rw [mapLookup_insert_ne acc m0 m d0 hm0] at h1
          exact Or.inl h1
      · exact Or.inr ⟨List.mem_cons_of_mem _ h1.1, h1.2⟩

/-! ### Lemmas about the type loop `buildTypes` -/

theorem buildTypes_error {ms : List String} {decls : List (Nat × AstFuncDecl)}
    {impls : List TypeForm} {acc : ResultTypes} {e : FindErr}
    (h : buildTypes ms decls impls acc = Except.error e) :
    ∃ impl ∈ impls, ∃ m ∈ ms, findMethodDeclAST impl m decls = Except.error e := by
  induction impls generalizing acc with
  | nil => cases h
  | cons impl0 rest ih =>
    unfold buildTypes at h
    cases hb : buildMethods impl0 decls ms [] with
    | error e0 =>
      rw [hb] at h
      simp only [Except.error.injEq] at h
      obtain ⟨m, hm, he⟩ := buildMethods_error (h ▸ hb)
      exact ⟨impl0, List.mem_cons_self impl0 rest, m, hm, he⟩
    | ok rm =>
      rw [hb] at h
      obtain ⟨impl', hi', m, hm, he⟩ := ih h
      exact ⟨impl', List.mem_cons_of_mem _ hi', m, hm, he⟩

theorem buildTypes_ok_all {ms : List String} {decls : List (Nat × AstFuncDecl)}
    {impls : List TypeForm} {acc rt : ResultTypes}
    (h : buildTypes ms decls impls acc = Except.ok rt) :
    ∀ impl ∈ impls, ∀ m ∈ ms, ∃ d, findMethodDeclAST impl m decls = Except.ok d := by
  induction impls generalizing acc with
  | nil => intro impl hi; cases hi
  | cons impl0 rest ih =>
    unfold buildTypes at h
    cases hb : buildMethods impl0 decls ms [] with
    | error e0 => rw [hb] at h; cases h
    | ok rm =>
      rw [hb] at h
      intro impl hi
      rcases List.mem_cons.mp hi with h1 | h1
      · exact fun m hm => buildMethods_ok_all (h1 ▸ hb) m hm
      · exact ih h impl h1

theorem buildTypes_ok_lookup {ms : List String} {decls : List (Nat × AstFuncDecl)}
    {impls : List TypeForm} {acc rt : ResultTypes}
    (h : buildTypes ms decls impls acc = Except.ok rt)
    {impl : TypeForm} {rm : ResultMethods}
    (hm : mapLookup rt impl = some rm) :
    mapLookup acc impl = some rm ∨
      (impl ∈ impls ∧ buildMethods impl decls ms [] = Except.ok rm) := by
  induction impls generalizing acc with
  | nil =>
    unfold buildTypes at h
    simp only [Except.ok.injEq] at h
    exact Or.inl (h ▸ hm)
  | cons impl0 rest ih =>
    unfold buildTypes at h
    cases hb : buildMethods impl0 decls ms [] with
    | error e0 => rw [hb] at h; cases h
    | ok rm0 =>
      rw [hb] at h
      rcases ih h with h1 | h1
      · by_cases hi0 : impl = impl0
        · subst hi0
          rw [mapLookup_insert_self] at h1
          injection h1 with h2
          exact Or.inr ⟨List.mem_cons_self impl rest, h2 ▸ hb⟩
        · rw [mapLookup_insert_ne acc impl0 impl rm0 hi0] at h1
          exact Or.inl h1
      · exact Or.inr ⟨List.mem_cons_of_mem _ h1.1, h1.2⟩

theorem buildTypes_ok_preserve_isSome {ms : List String}
    {decls : List (Nat × AstFuncDecl)} {impls : List TypeForm}
    {acc rt : ResultTypes}
    (h : buildTypes ms decls impls acc = Except.ok rt)
    {x : TypeForm} (hx : (mapLookup acc x).isSome = true) :
    (mapLookup rt x).isSome = true := by
  induction impls generalizing acc with
  | nil =>
    unfold buildTypes at h
    simp only [Except.ok.injEq] at h
    exact h ▸ hx
  | cons impl0 rest ih =>
    unfold buildTypes at h
    cases hb : buildMethods impl0 decls ms [] with
    | error e0 => rw [hb] at h; cases h
    | ok rm0 =>
      rw [hb] at h
      exact ih h (mapLookup_isSome_insert acc impl0 x rm0 hx)

theorem buildTypes_ok_isSome {ms : List String}
    {decls : List (Nat × AstFuncDecl)} {impls : List TypeForm}
    {acc rt : ResultTypes}
    (h : buildTypes ms decls impls acc = Except.ok rt)
    {impl : TypeForm} (hi : impl ∈ impls) :
    (mapLookup rt impl).isSome = true := by
  induction impls generalizing acc with
  | nil => cases hi
  | cons impl0 rest ih =>
    unfold buildTypes at h
    cases hb : buildMethods impl0 decls ms [] with
    | error e0 => rw [hb] at h; cases h
    | ok rm0 =>
      rw [hb] at h
      rcases List.mem_cons.mp hi with h1 | h1
      · subst h1
        refine buildTypes_ok_preserve_isSome h ?_
        rw [mapLookup_insert_self]; rfl
      · exact ih h h1

/-! ### Lemmas about the method-declaration index `pkgMethodBodyDecls` -/

theorem foldl_addDecl_none (ds : List AstDecl) :
    List.foldl addDecl none ds = none := by
  induction ds with
  | nil => rfl
  | cons d rest ih =>
    simp only [List.foldl]
    have h0 : addDecl none d = none := rfl
    rw [h0, ih]

theorem foldl_addFile_none (fs : List AstFile) :
    List.foldl addFile none fs = none := by
  induction fs with
  | nil => rfl
  | cons f rest ih =>
    simp only [List.foldl]
    have h0 : addFile none f = none := foldl_addDecl_none f.decls
    rw [h0, ih]

theorem foldl_addDecl_entries (ds : List AstDecl) :
    ∀ (acc : Option (List (Nat × AstFuncDecl))) (m' : List (Nat × AstFuncDecl)),
    List.foldl addDecl acc ds = some m' →
    ∀ p d, (p, d) ∈ m' →
      (∃ m, acc = some m ∧ (p, d) ∈ m) ∨
      (AstDecl.funcDecl d ∈ ds ∧ d.hasRecv = true ∧ d.bodyPos = some p) := by
  induction ds with
  | nil =>
    intro acc m' h p d hm
    exact Or.inl ⟨m', h, hm⟩
  | cons d0 rest ih =>
    intro acc m' h p d hm
    simp only [List.foldl] at h
    rcases ih (addDecl acc d0) m' h p d hm with h1 | h1
    · obtain ⟨m1, hm1, hin⟩ := h1
      cases acc with
      | none => rw [show addDecl none d0 = none from rfl] at hm1; cases hm1
      | some m0 =>
        cases d0 with
        | other =>
          rw [show addDecl (some m0) AstDecl.other = some m0 from rfl] at hm1
          injection hm1 with h2
          exact Or.inl ⟨m0, rfl, h2 ▸ hin⟩
        | funcDecl fd =>
          by_cases hr : fd.hasRecv
          · cases hb : fd.bodyPos with
            | none =>
              have : addDecl (some m0) (AstDecl.funcDecl fd) = none := by
                simp only [addDecl, if_pos hr, hb]
              rw [this] at hm1; cases hm1
            | some p0 =>
              have : addDecl (some m0) (AstDecl.funcDecl fd) =
                  some (mapInsert m0 p0 fd) := by
                simp only [addDecl, if_pos hr, hb]
              rw [this] at hm1
              injection hm1 with h2
              rcases mem_mapInsert (h2 ▸ hin) with h3 | h3
              · exact Or.inl ⟨m0, rfl, h3⟩
              · obtain ⟨hp, hd⟩ := h3
                subst hd
                exact Or.inr ⟨List.mem_cons_self _ rest, hr, hp ▸ hb⟩
          · have : addDecl (some m0) (AstDecl.funcDecl fd) = some m0 := by
              simp only [addDecl, if_neg hr]
            rw [this] at hm1
            injection hm1 with h2
            exact Or.inl ⟨m0, rfl, h2 ▸ hin⟩
    · exact Or.inr ⟨List.mem_cons_of_mem _ h1.1, h1.2.1, h1.2.2⟩

theorem foldl_addFile_entries (fs : List AstFile) :
    ∀ (acc : Option (List (Nat × AstFuncDecl))) (m' : List (Nat × AstFuncDecl)),
    List.foldl addFile acc fs = some m' →
    ∀ p d, (p, d) ∈ m' →
      (∃ m, acc = some m ∧ (p, d) ∈ m) ∨
      (∃ f ∈ fs, AstDecl.funcDecl d ∈ f.decls ∧
        d.hasRecv = true ∧ d.bodyPos = some p) := by
  induction fs with
  | nil =>
    intro acc m' h p d hm
    exact Or.inl ⟨m', h, hm⟩
  | cons f0 rest ih =>
    intro acc m' h p d hm
    simp only [List.foldl] at h
    rcases ih (addFile acc f0) m' h p d hm with h1 | h1
    · obtain ⟨m1, hm1, hin⟩ := h1
      rcases foldl_addDecl_entries f0.decls acc m1 hm1 p d hin with h2 | h2
      · exact Or.inl h2
      · exact Or.inr ⟨f0, List.mem_cons_self f0 rest, h2.1, h2.2.1, h2.2.2⟩
    · obtain ⟨f, hf, hrest⟩ := h1
      exact Or.inr ⟨f, List.mem_cons_of_mem _ hf, hrest⟩

/-- Every entry of the built method index is a receiver-bearing declaration of
one of the package's files, keyed by its body position. -/
theorem pkgMethodBodyDecls_entries {pkg : Package}
    {m' : List (Nat × AstFuncDecl)} (h : pkgMethodBodyDecls pkg = some m') :
    ∀ p d, (p, d) ∈ m' →
      ∃ f ∈ pkg.astFiles, AstDecl.funcDecl d ∈ f.decls ∧
        d.hasRecv = true ∧ d.bodyPos = some p := by
  intro p d hm
  rcases foldl_addFile_entries pkg.astFiles (some []) m' h p d hm with h1 | h1
  · obtain ⟨m0, hm0, hin⟩ := h1
    injection hm0 with h2
    rw [← h2] at hin
    cases hin
  · exact h1

theorem foldl_addDecl_bodyless {fd : AstFuncDecl}
    (hr : fd.hasRecv = true) (hb : fd.bodyPos = none) (ds : List AstDecl) :
    ∀ (acc : Option (List (Nat × AstFuncDecl))), AstDecl.funcDecl fd ∈ ds →
    List.foldl addDecl acc ds = none := by
  induction ds with
  | nil => intro acc h; cases h
  | cons d0 rest ih =>
    intro acc h
    rcases List.mem_cons.mp h with h1 | h1
    · subst h1
      simp only [List.foldl]
      have h2 : addDecl acc (AstDecl.funcDecl fd) = none := by
        cases acc with
        | none => rfl
        | some m0 => simp only [addDecl, if_pos hr, hb]
      rw [h2]
      exact foldl_addDecl_none rest
    · simp only [List.foldl]
      exact ih (addDecl acc d0) h1

theorem foldl_addFile_bodyless {fd : AstFuncDecl} {f : AstFile}
    (hr : fd.hasRecv = true) (hb : fd.bodyPos = none)
    (hdf : AstDecl.funcDecl fd ∈ f.decls) (fs : List AstFile) :
    ∀ (acc : Option (List (Nat × AstFuncDecl))), f ∈ fs →
    List.foldl addFile acc fs = none := by
  induction fs with
  | nil => intro acc h; cases h
  | cons f0 rest ih =>
    intro acc h
    rcases List.mem_cons.mp h with h1 | h1
    · subst h1
      simp only [List.foldl]
      rw [show addFile acc f = none from foldl_addDecl_bodyless hr hb f.decls acc hdf]
      exact foldl_addFile_none rest
    · simp only [List.foldl]
      exact ih (addFile acc f0) h1

/-! ### Lemmas about the per-package loop `findPackages` -/

theorem findPackages_ok_preserve {it : GoType} {ms : List String}
    {pkgs : List Package} {acc res : ResultPackages}
    (h : findPackages it ms pkgs acc = FindOutcome.ok res)
    {pkg : Package} (hpkg : pkg ∉ pkgs) :
    mapLookup res pkg = mapLookup acc pkg := by
  induction pkgs generalizing acc with
  | nil =>
    unfold findPackages at h
    injection h with h1
    rw [h1]
  | cons p0 rest ih =>
    unfold findPackages at h
    by_cases hu : it.underlyingIsInterface
    · rw [if_pos hu] at h
      cases hl : loadPkgTypeMethodASTs
          (findInterfaceImplementations it.ifaceMethods p0) p0 ms with
      | none => rw [hl] at h; cases h
      | some r =>
        rw [hl] at h
        cases r with
        | error e => cases h
        | ok pkgResult =>
          have hne : pkg ≠ p0 := fun h2 => hpkg (h2 ▸ List.mem_cons_self p0 rest)
          have h3 := ih h (fun h2 => hpkg (List.mem_cons_of_mem _ h2))
          rw [h3, mapLookup_insert_ne acc p0 pkg pkgResult hne]
    · rw [if_neg hu] at h; cases h

theorem findPackages_ok_mem {it : GoType} {ms : List String}
    {pkgs : List Package} {acc res : ResultPackages}
    (h : findPackages it ms pkgs acc = FindOutcome.ok res)
    {pkg : Package} (hpkg : pkg ∈ pkgs) :
    ∃ rt, mapLookup res pkg = some rt ∧
      loadPkgTypeMethodASTs (findInterfaceImplementations it.ifaceMethods pkg)
        pkg ms = some (Except.ok rt) := by
  induction pkgs generalizing acc with
  | nil => cases hpkg
  | cons p0 rest ih =>
    unfold findPackages at h
    by_cases hu : it.underlyingIsInterface
    · rw [if_pos hu] at h
      cases hl : loadPkgTypeMethodASTs
          (findInterfaceImplementations it.ifaceMethods p0) p0 ms with
      | none => rw [hl] at h; cases h
      | some r =>
        rw [hl] at h
        cases r with
        | error e => cases h
        | ok pkgResult =>
          by_cases hmem : pkg ∈ rest
          · exact ih h hmem
          · have hp0 : pkg = p0 := by
              rcases List.mem_cons.mp hpkg with h1 | h1
              · exact h1
              · exact absurd h1 hmem
            subst hp0
            refine ⟨pkgResult, ?_, hl⟩
            rw [findPackages_ok_preserve h hmem, mapLookup_insert_self]
    · rw [if_neg hu] at h; cases h

theorem findPackages_ok_lookup {it : GoType} {ms : List String}
    {pkgs : List Package} {acc res : ResultPackages}
    (h : findPackages it ms pkgs acc = FindOutcome.ok res)
    {pkg : Package} {rt : ResultTypes}
    (hl : mapLookup res pkg = some rt) :
    mapLookup acc pkg = some rt ∨
      (pkg ∈ pkgs ∧
        loadPkgTypeMethodASTs (findInterfaceImplementations it.ifaceMethods pkg)
          pkg ms = some (Except.ok rt)) := by
  by_cases hmem : pkg ∈ pkgs
  · obtain ⟨rt', h1, h2⟩ := findPackages_ok_mem h hmem
    rw [hl] at h1
    injection h1 with h3
    exact Or.inr ⟨hmem, h3 ▸ h2⟩
  · rw [findPackages_ok_preserve h hmem] at hl
    exact Or.inl hl

/-- One definitional step of the per-package loop. -/
theorem findPackages_cons (it : GoType) (ms : List String) (p0 : Package)
    (rest : List Package) (acc : ResultPackages) :
    findPackages it ms (p0 :: rest) acc =
      if it.underlyingIsInterface then
        match loadPkgTypeMethodASTs
            (findInterfaceImplementations it.ifaceMethods p0) p0 ms with
        | none => FindOutcome.panic
        | some (Except.error e) => FindOutcome.err e
        | some (Except.ok pkgResult) =>
          findPackages it ms rest (mapInsert acc p0 pkgResult)
      else FindOutcome.panic := rfl

theorem findPackages_err {it : GoType} {ms : List String}
    (hund : it.underlyingIsInterface = true) {pkgs : List Package}
    (hnopanic : ∀ p ∈ pkgs, pkgMethodBodyDecls p ≠ none)
    (hfail : ∃ p ∈ pkgs, ∃ impl ∈ findInterfaceImplementations it.ifaceMethods p,
      ∃ m ∈ ms, ∃ e0, findMethodDeclAST impl m (declsOf p) = Except.error e0)
    (acc : ResultPackages) :
    ∃ p ∈ pkgs, ∃ impl ∈ findInterfaceImplementations it.ifaceMethods p,
      ∃ m ∈ ms, ∃ e, findMethodDeclAST impl m (declsOf p) = Except.error e ∧
        findPackages it ms pkgs acc = FindOutcome.err e := by
  induction pkgs generalizing acc with
  | nil =>
    obtain ⟨p, hp, _⟩ := hfail
    cases hp
  | cons p0 rest ih =>
    have hdecls0 : pkgMethodBodyDecls p0 = some (declsOf p0) := by
      cases hd : pkgMethodBodyDecls p0 with
      | none => exact absurd hd (hnopanic p0 (List.mem_cons_self p0 rest))
      | some m0 => simp [declsOf, hd]
    have hload0 : loadPkgTypeMethodASTs
        (findInterfaceImplementations it.ifaceMethods p0) p0 ms =
        some (buildTypes ms (declsOf p0)
          (findInterfaceImplementations it.ifaceMethods p0) []) := by
      simp only [loadPkgTypeMethodASTs, hdecls0]
    cases hb : buildTypes ms (declsOf p0)
        (findInterfaceImplementations it.ifaceMethods p0) [] with
    | error e =>
      have hstep : findPackages it ms (p0 :: rest) acc = FindOutcome.err e := by
        rw [findPackages_cons, if_pos hund, hload0, hb]
      obtain ⟨impl, hi, m, hm, he⟩ := buildTypes_error hb
      exact ⟨p0, List.mem_cons_self p0 rest, impl, hi, m, hm, e, he, hstep⟩
    | ok pkgResult =>
      have hstep : findPackages it ms (p0 :: rest) acc =
          findPackages it ms rest (mapInsert acc p0 pkgResult) := by
        rw [findPackages_cons, if_pos hund, hload0, hb]
      have hfail' : ∃ p ∈ rest,
          ∃ impl ∈ findInterfaceImplementations it.ifaceMethods p,
          ∃ m ∈ ms, ∃ e0, findMethodDeclAST impl m (declsOf p) = Except.error e0 := by
        obtain ⟨p, hp, impl, hi, m, hm, e0, he0⟩ := hfail
        rcases List.mem_cons.mp hp with h1 | h1
        · subst h1
          obtain ⟨d, hd⟩ := buildTypes_ok_all hb impl hi m hm
          rw [hd] at he0
          cases he0
        · exact ⟨p, h1, impl, hi, m, hm, e0, he0⟩
      obtain ⟨p, hp, impl, hi, m, hm, e, he, hrec⟩ :=
        ih (fun q hq => hnopanic q (List.mem_cons_of_mem _ hq)) hfail'
          (mapInsert acc p0 pkgResult)
      exact ⟨p, List.mem_cons_of_mem _ hp, impl, hi, m, hm, e, he, hstep ▸ hrec⟩

/-! ### Unfolding `Find` -/

theorem Find_eq_findPackages (load : LoadFn) (query : Query) (cfg : Config)
    (pkgs : List Package) (ifaceType : GoType)
    (hcfg : query.loadConfig = some cfg)
    (hload : load (effectiveConfig cfg) query.packages = Except.ok pkgs)
    (hiface : findInterface pkgs query.interfacePackage query.interfaceName =
      Except.ok ifaceType) :
    (Find load query).2 = findPackages ifaceType query.methods pkgs [] := by
  unfold Find
  rw [hcfg]
  simp only [hload, hiface]

theorem Find_fst (load : LoadFn) (query : Query) (cfg : Config)
    (hcfg : query.loadConfig = some cfg) :
    (Find load query).1 = { query with loadConfig := some (effectiveConfig cfg) } := by
  unfold Find
  rw [hcfg]
  cases hl : load (effectiveConfig cfg) query.packages with
  | error e => simp only [hl]
  | ok pkgs =>
    cases hi : findInterface pkgs query.interfacePackage query.interfaceName with
    | error e => simp only [hl, hi]
    | ok it => simp only [hl, hi]

theorem Find_err_of_findInterface_err (load : LoadFn) (query : Query)
    (cfg : Config) (pkgs : List Package) (e : FindErr)
    (hcfg : query.loadConfig = some cfg)
    (hload : load (effectiveConfig cfg) query.packages = Except.ok pkgs)
    (hiface : findInterface pkgs query.interfacePackage query.interfaceName =
      Except.error e) :
    (Find load query).2 = FindOutcome.err e := by
  unfold Find
  rw [hcfg]
  simp only [hload, hiface]

/-! ### Characterizing the implementation scan -/

theorem mem_findInterfaceImplementations {iface : List GoMethod} {pkg : Package}
    {tf : TypeForm} :
    tf ∈ findInterfaceImplementations iface pkg ↔
      ∃ e ∈ pkg.defs, implForm iface e = some tf := by
  unfold findInterfaceImplementations
  simp only [List.mem_filterMap]

theorem implForm_eq_some (iface : List GoMethod) (e : DefEntry) (tf : TypeForm) :
    implForm iface e = some tf ↔
      (isTypeDefEntry e = true ∧ e.typ.underlyingIsInterface = false ∧
        ((implementsB (TypeForm.value e.typ) iface = true ∧
            tf = TypeForm.value e.typ) ∨
         (implementsB (TypeForm.value e.typ) iface = false ∧
          implementsB (TypeForm.ptr e.typ) iface = true ∧
            tf = TypeForm.ptr e.typ))) := by
  cases h1 : isTypeDefEntry e with
  | false => simp [implForm, h1]
  | true =>
    cases h2 : e.typ.underlyingIsInterface with
    | true => simp [implForm, h1, h2]
    | false =>
      cases h3 : implementsB (TypeForm.value e.typ) iface with
      | true =>
        simp only [implForm, h1, if_true, h2, Bool.false_eq_true, if_false, h3,
          if_true, Option.some.injEq, true_and, Bool.true_eq_false, false_and,
          or_false]
        exact eq_comm
      | false =>
        cases h4 : implementsB (TypeForm.ptr e.typ) iface with
        | true =>
          simp only [implForm, h1, if_true, h2, Bool.false_eq_true, if_false,
            h3, if_false, h4, if_true, Option.some.injEq, true_and,
            Bool.true_eq_false, false_and, false_or]
          exact eq_comm
        | false =>
          simp [implForm, h1, h2, h3, h4]

/-- A type is never recorded in both its value and its pointer form. -/
theorem not_both_forms {iface : List GoMethod} {pkg : Package} {t : GoType} :
    ¬ (TypeForm.value t ∈ findInterfaceImplementations iface pkg ∧
       TypeForm.ptr t ∈ findInterfaceImplementations iface pkg) := by
  rintro ⟨h1, h2⟩
  rw [mem_findInterfaceImplementations] at h1 h2
  obtain ⟨e1, he1, hf1⟩ := h1
  obtain ⟨e2, he2, hf2⟩ := h2
  rw [implForm_eq_some] at hf1 hf2
  rcases hf1.2.2 with hv | hp
  · rcases hf2.2.2 with hv2 | hp2
    · cases hv2.2
    · have ht1 : e1.typ = t := TypeForm.value.inj hv.2.symm
      have ht2 : e2.typ = t := TypeForm.ptr.inj hp2.2.2.symm
      rw [ht1] at hv
      rw [ht2] at hp2
      rw [hv.1] at hp2
      cases hp2.1
  · cases hp.2.2

/-! ### Further concrete inputs used by witnesses -/

def nilCfgQuery : Query :=
  { loadConfig := none, packages := ["geo"], interfacePackage := "geo"
    interfaceName := "Shape", methods := [] }

def failLoad : LoadFn :=
  fun _ _ => Except.error { pkg := "geo", msg := "no Go files" }

def shapesPkgSwapped : Package :=
  { shapesPkg with defs := [entryOf squareT, entryOf circleT, entryOf namedT] }

def satCfg : Config := { mode := 475, fset := some 7 }

def satQuery : Query := { gQuery with loadConfig := some satCfg }

def gQueryPerim : Query := { gQuery with methods := ["Perimeter"] }

/-! ### The claims -/

/-- C9: `Find` dereferences `query.LoadConfig` before any validation, so for
every `Query` whose `LoadConfig` is nil it panics (nil-pointer dereference)
instead of returning an error — a non-nil `LoadConfig` is an unstated
precondition of the public entry point. -/
theorem find_nil_loadConfig_panics (load : LoadFn) (query : Query)
    (h : query.loadConfig = none) : (Find load query).2 = FindOutcome.panic := by
  unfold Find
  rw [h]

theorem find_nil_loadConfig_panics_witness :
    (Find gLoad nilCfgQuery).2 = FindOutcome.panic :=
  find_nil_loadConfig_panics gLoad nilCfgQuery rfl

/-- C10: the method-declaration index dereferences `declFunc.Body` for every
top-level function declaration with a receiver without a nil check, so if any
method declaration in a package's syntax has no body, indexing panics
(modelled as `none`) rather than reaching any error branch. -/
theorem pkgMethodBodyDecls_panics_on_bodyless (pkg : Package)
    (h : ∃ f ∈ pkg.astFiles, ∃ fd, AstDecl.funcDecl fd ∈ f.decls ∧
      fd.hasRecv = true ∧ fd.bodyPos = none) :
    pkgMethodBodyDecls pkg = none := by
  obtain ⟨f, hf, fd, hfd, hr, hb⟩ := h
  exact foldl_addFile_bodyless hr hb hfd pkg.astFiles (some []) hf

theorem pkgMethodBodyDecls_panics_on_bodyless_witness :
    pkgMethodBodyDecls badPkg = none :=
  pkgMethodBodyDecls_panics_on_bodyless badPkg
    ⟨{ decls := [AstDecl.funcDecl { hasRecv := true, bodyPos := none }] },
      by decide, { hasRecv := true, bodyPos := none }, by decide, rfl, rfl⟩

/-- C6: if the external loader fails — a requested package cannot be found,
parsed or type-checked, which the loader reports with an error naming the
offending package — then `Find` fails, wrapping that error, and the wrapped
error still names the offending package. -/
theorem find_load_error_names_package (load : LoadFn) (query : Query)
    (cfg : Config) (e : LoadErr)
    (hcfg : query.loadConfig = some cfg)
    (hload : load (effectiveConfig cfg) query.packages = Except.error e) :
    (Find load query).2 = FindOutcome.err (FindErr.loadFailed e) ∧
      (FindErr.loadFailed e).namedPackage = some e.pkg := by
  constructor
  · unfold Find
    rw [hcfg]
    simp only [hload]
  · rfl

theorem find_load_error_names_package_witness :
    (Find failLoad gQuery).2 =
      FindOutcome.err (FindErr.loadFailed { pkg := "geo", msg := "no Go files" }) :=
  (find_load_error_names_package failLoad gQuery gCfg
    { pkg := "geo", msg := "no Go files" } rfl rfl).1

/-- C8: the set of implementing types and the recorded form of each are
independent of the (nondeterministic) iteration order over the package's
definitions map: permuting the definition entries permutes the resolution
result, leaving membership — hence the set and each type's form — unchanged. -/
theorem impls_stable_under_defs_order (iface : List GoMethod)
    (pkg1 pkg2 : Package) (hperm : pkg1.defs.Perm pkg2.defs) :
    (findInterfaceImplementations iface pkg1).Perm
      (findInterfaceImplementations iface pkg2) ∧
    ∀ tf, (tf ∈ findInterfaceImplementations iface pkg1 ↔
      tf ∈ findInterfaceImplementations iface pkg2) := by
  have h : (findInterfaceImplementations iface pkg1).Perm
      (findInterfaceImplementations iface pkg2) :=
    hperm.filterMap (implForm iface)
  exact ⟨h, fun tf => h.mem_iff⟩

theorem impls_stable_under_defs_order_witness :
    (findInterfaceImplementations shapeT.ifaceMethods shapesPkg).Perm
      (findInterfaceImplementations shapeT.ifaceMethods shapesPkgSwapped) :=
  (impls_stable_under_defs_order shapeT.ifaceMethods shapesPkg shapesPkgSwapped
    (List.Perm.swap (entryOf squareT) (entryOf circleT) [entryOf namedT])).1

/-- C7 as stated is false: `Find` mutates caller-owned state.  On a `Query`
whose `LoadConfig` lacks required mode bits (and has a nil `Fset`), the
post-state of the `Query` differs from the original. -/
theorem find_mutates_query_counterexample : (Find gLoad gQuery).1 ≠ gQuery := by
  decide

/-- C7 amended: beyond reading the workspace, `Find`'s only effect on
caller-owned state is on the `LoadConfig` pointee — it ORs the required load
modes into `Mode` and replaces a nil `Fset` with a fresh file set; every
other `Query` field is untouched, and when `Mode` already contains the
required bits and `Fset` is non-nil the `Query` is left fully unmodified
(the loaded program is read-only throughout). -/
theorem find_frame_amended (load : LoadFn) (query : Query) (cfg : Config)
    (hcfg : query.loadConfig = some cfg) :
    (Find load query).1 = { query with loadConfig := some (effectiveConfig cfg) } ∧
    (Find load query).1.packages = query.packages ∧
    (Find load query).1.interfacePackage = query.interfacePackage ∧
    (Find load query).1.interfaceName = query.interfaceName ∧
    (Find load query).1.methods = query.methods ∧
    (cfg.mode ||| requiredLoadModes = cfg.mode → cfg.fset ≠ none →
      (Find load query).1 = query) := by
  have h := Find_fst load query cfg hcfg
  refine ⟨h, by rw [h], by rw [h], by rw [h], by rw [h], ?_⟩
  intro hmode hfset
  have heff : effectiveConfig cfg = cfg := by
    obtain ⟨m, fs⟩ := cfg
    cases fs with
    | none => exact absurd rfl hfset
    | some f =>
      simp only [effectiveConfig, Config.mk.injEq]
      exact ⟨hmode, trivial⟩
  rw [h, heff, ← hcfg]

theorem find_frame_amended_witness : (Find gLoad satQuery).1 = satQuery :=
  (find_frame_amended gLoad satQuery satCfg rfl).2.2.2.2.2 (by decide) (by decide)


def q5a : Query := { gQuery with interfacePackage := "zoo" }

def q5b : Query := { gQuery with interfaceName := "Flat" }

/-- C5: interface location fails when no loaded package's identifier equals
the interface owner, and also when the owning package is found (first match
by ID) but contains no type definition with the interface name; in either
failure case `Find` propagates the error and returns no result. -/
theorem findInterface_failure_modes (load : LoadFn) (query : Query)
    (cfg : Config) (pkgs : List Package)
    (hcfg : query.loadConfig = some cfg)
    (hload : load (effectiveConfig cfg) query.packages = Except.ok pkgs) :
    ((∀ p ∈ pkgs, p.id ≠ query.interfacePackage) →
      findInterface pkgs query.interfacePackage query.interfaceName =
        Except.error (FindErr.ifacePkgNotFound query.interfacePackage) ∧
      (Find load query).2 =
        FindOutcome.err (FindErr.ifacePkgNotFound query.interfacePackage)) ∧
    (∀ p, pkgs.find? (fun q => q.id == query.interfacePackage) = some p →
      (∀ e ∈ p.defs, isTypeDefEntry e = true → e.name ≠ query.interfaceName) →
      findInterface pkgs query.interfacePackage query.interfaceName =
        Except.error
          (FindErr.ifaceTypeNotFound query.interfaceName query.interfacePackage) ∧
      (Find load query).2 =
        FindOutcome.err
          (FindErr.ifaceTypeNotFound query.interfaceName query.interfacePackage)) := by
  constructor
  · intro hid
    have hnone : pkgs.find? (fun q => q.id == query.interfacePackage) = none := by
      rw [List.find?_eq_none]
      intro p hp
      simp only [beq_iff_eq]
      exact hid p hp
    have hfi : findInterface pkgs query.interfacePackage query.interfaceName =
        Except.error (FindErr.ifacePkgNotFound query.interfacePackage) := by
      unfold findInterface
      rw [hnone]
    exact ⟨hfi, Find_err_of_findInterface_err load query cfg pkgs _ hcfg hload hfi⟩
  · intro p hfind hno
    have hnone2 : p.defs.find?
        (fun e => isTypeDefEntry e && e.name == query.interfaceName) = none := by
      rw [List.find?_eq_none]
      intro e he
      simp only [Bool.and_eq_true, beq_iff_eq, not_and]
      exact hno e he
    have hfi : findInterface pkgs query.interfacePackage query.interfaceName =
        Except.error
          (FindErr.ifaceTypeNotFound query.interfaceName query.interfacePackage) := by
      unfold findInterface
      rw [hfind]
      simp only [hnone2]
    exact ⟨hfi, Find_err_of_findInterface_err load query cfg pkgs _ hcfg hload hfi⟩

theorem findInterface_failure_modes_witness :
    (Find gLoad q5a).2 = FindOutcome.err (FindErr.ifacePkgNotFound "zoo") ∧
    (Find gLoad q5b).2 = FindOutcome.err (FindErr.ifaceTypeNotFound "Flat" "geo") := by
  constructor
  · exact ((findInterface_failure_modes gLoad q5a gCfg gPkgs rfl rfl).1 (by decide)).2
  · exact ((findInterface_failure_modes gLoad q5b gCfg gPkgs rfl rfl).2 geoPkg
      (by decide) (by decide)).2

/-- C2: when `Find` succeeds, the result contains an entry for every loaded
package — including the interface's own package and packages with zero
conforming types — and a package with no conforming types gets an empty
mapping rather than being absent. -/
theorem find_entry_for_every_package (load : LoadFn) (query : Query)
    (cfg : Config) (pkgs : List Package) (ifaceType : GoType)
    (res : ResultPackages)
    (hcfg : query.loadConfig = some cfg)
    (hload : load (effectiveConfig cfg) query.packages = Except.ok pkgs)
    (hiface : findInterface pkgs query.interfacePackage query.interfaceName =
      Except.ok ifaceType)
    (hok : (Find load query).2 = FindOutcome.ok res) :
    ∀ pkg ∈ pkgs, ∃ rt, mapLookup res pkg = some rt ∧
      (findInterfaceImplementations ifaceType.ifaceMethods pkg = [] → rt = []) := by
  intro pkg hpkg
  rw [Find_eq_findPackages load query cfg pkgs ifaceType hcfg hload hiface] at hok
  obtain ⟨rt, h1, h2⟩ := findPackages_ok_mem hok hpkg
  refine ⟨rt, h1, ?_⟩
  intro hempty
  rw [hempty] at h2
  cases hd : pkgMethodBodyDecls pkg with
  | none =>
    simp only [loadPkgTypeMethodASTs, hd] at h2
    exact Option.noConfusion h2
  | some decls =>
    simp only [loadPkgTypeMethodASTs, hd, buildTypes, Option.some.injEq,
      Except.ok.injEq] at h2
    exact h2.symm

theorem find_entry_for_every_package_witness :
    ∃ rt, mapLookup gRes geoPkg = some rt ∧
      (findInterfaceImplementations shapeT.ifaceMethods geoPkg = [] → rt = []) :=
  find_entry_for_every_package gLoad gQuery gCfg gPkgs shapeT gRes rfl rfl
    rfl (by decide) geoPkg (by decide)


/-- C1: in a successful run, a type form appears in a package's entry of the
result iff the package has a type definition whose type is not an interface
and which implements the target interface in that form — the value form when
the value type implements, otherwise the pointer form when the pointer type
implements — and no type is recorded in both forms. -/
theorem find_records_implementers_iff (load : LoadFn) (query : Query)
    (cfg : Config) (pkgs : List Package) (ifaceType : GoType)
    (res : ResultPackages) (pkg : Package) (rt : ResultTypes)
    (hcfg : query.loadConfig = some cfg)
    (hload : load (effectiveConfig cfg) query.packages = Except.ok pkgs)
    (hiface : findInterface pkgs query.interfacePackage query.interfaceName =
      Except.ok ifaceType)
    (hok : (Find load query).2 = FindOutcome.ok res)
    (hpkg : mapLookup res pkg = some rt) :
    (∀ tf : TypeForm, ((mapLookup rt tf).isSome = true ↔
      ∃ e ∈ pkg.defs, isTypeDefEntry e = true ∧
        e.typ.underlyingIsInterface = false ∧
        ((implementsB (TypeForm.value e.typ) ifaceType.ifaceMethods = true ∧
            tf = TypeForm.value e.typ) ∨
         (implementsB (TypeForm.value e.typ) ifaceType.ifaceMethods = false ∧
          implementsB (TypeForm.ptr e.typ) ifaceType.ifaceMethods = true ∧
            tf = TypeForm.ptr e.typ)))) ∧
    (∀ t : GoType, ¬ ((mapLookup rt (TypeForm.value t)).isSome = true ∧
        (mapLookup rt (TypeForm.ptr t)).isSome = true)) := by
  rw [Find_eq_findPackages load query cfg pkgs ifaceType hcfg hload hiface] at hok
  rcases findPackages_ok_lookup hok hpkg with h1 | h1
  · exact Option.noConfusion h1
  · obtain ⟨hmem, hload2⟩ := h1
    cases hd : pkgMethodBodyDecls pkg with
    | none =>
      simp only [loadPkgTypeMethodASTs, hd] at hload2
      exact Option.noConfusion hload2
    | some decls =>
      simp only [loadPkgTypeMethodASTs, hd, Option.some.injEq] at hload2
      have hlink : ∀ tf : TypeForm, (mapLookup rt tf).isSome = true ↔
          tf ∈ findInterfaceImplementations ifaceType.ifaceMethods pkg := by
        intro tf
        constructor
        · intro hs
          obtain ⟨rm, hrm⟩ := Option.isSome_iff_exists.mp hs
          rcases buildTypes_ok_lookup hload2 hrm with h2 | h2
          · exact Option.noConfusion h2
          · exact h2.1
        · intro hmem2
          exact buildTypes_ok_isSome hload2 hmem2
      constructor
      · intro tf
        rw [hlink tf, mem_findInterfaceImplementations]
        exact exists_congr fun e =>
          and_congr_right fun _ => implForm_eq_some ifaceType.ifaceMethods e tf
      · intro t hboth
        exact @not_both_forms ifaceType.ifaceMethods pkg t
          ⟨(hlink (TypeForm.value t)).mp hboth.1, (hlink (TypeForm.ptr t)).mp hboth.2⟩

theorem find_records_implementers_iff_witness :
    (mapLookup gRtShapes (TypeForm.value circleT)).isSome = true :=
  ((find_records_implementers_iff gLoad gQuery gCfg gPkgs shapeT gRes shapesPkg
      gRtShapes rfl rfl rfl (by decide) (by decide)).1
    (TypeForm.value circleT)).mpr
    ⟨entryOf circleT, by decide, by decide, by decide,
      Or.inl ⟨by decide, rfl⟩⟩

/-- Which requested method name an error carries, when it carries one.  The
`fieldNotFunc` error corresponds to source line 155, whose format string
interpolates the nil `*types.Func` obtained from the failed type assertion —
not the requested method name — so it names no method. -/
def FindErr.namedMethod : FindErr → Option String
  | .methodNotFound m _ => some m
  | .declNotFound m _ => some m
  | _ => none

/-- `Circle`, but with a struct field `Radius`: `types.LookupFieldOrMethod`
resolves the field for the name `Radius`, and no method of that name exists. -/
def circleFieldT : GoType :=
  { name := "Circle", underlyingIsInterface := false, ifaceMethods := []
    valueMethods := [areaM], ptrMethods := [areaM]
    members := [("Area", LookupResult.func 10),
                ("Radius", LookupResult.field)] }

def shapesFieldPkg : Package :=
  { id := "shapes", defs := [entryOf circleFieldT]
    astFiles := [{ decls := [AstDecl.funcDecl circleAreaDecl] }] }

def gPkgsField : List Package := [geoPkg, shapesFieldPkg]

def gLoadField : LoadFn := fun _ _ => Except.ok gPkgsField

def qRadius : Query := { gQuery with methods := ["Radius"] }

/-- C3 as stated is false: on a program where the recorded implementer
`Circle` has a struct field `Radius`, no method named `Radius` resolves on
`Circle` (the lookup yields the field, which is not a method), and `Find`
fails through the `!ok` branch of source lines 153-156 — whose error
formats the nil `*types.Func` and therefore names only the type, not the
requested method. -/
theorem find_fails_on_missing_method_counterexample :
    findInterfaceImplementations shapeT.ifaceMethods shapesFieldPkg =
      [TypeForm.value circleFieldT] ∧
    lookupFieldOrMethod (TypeForm.value circleFieldT) "Radius" =
      some LookupResult.field ∧
    (Find gLoadField qRadius).2 =
      FindOutcome.err (FindErr.fieldNotFunc "Circle") ∧
    FindErr.namedMethod (FindErr.fieldNotFunc "Circle") = none := by
  decide

/-- C3 amended: if for some recorded implementing type a requested method
name does not resolve to a method — nothing resolves at all, or only a
non-function struct field resolves — and no package's method index panics,
then `Find` fails and returns no result, with an error naming a recorded
implementing type on which a requested name failed to resolve; the error
also names the method, except when the name resolved to a struct field, in
which case the source formats a nil `*types.Func` and the error names only
the type. -/
theorem find_fails_on_unresolvable_method (load : LoadFn) (query : Query)
    (cfg : Config) (pkgs : List Package) (ifaceType : GoType)
    (hcfg : query.loadConfig = some cfg)
    (hload : load (effectiveConfig cfg) query.packages = Except.ok pkgs)
    (hiface : findInterface pkgs query.interfacePackage query.interfaceName =
      Except.ok ifaceType)
    (hund : ifaceType.underlyingIsInterface = true)
    (hnopanic : ∀ p ∈ pkgs, pkgMethodBodyDecls p ≠ none)
    (hfail : ∃ p ∈ pkgs,
      ∃ impl ∈ findInterfaceImplementations ifaceType.ifaceMethods p,
      ∃ m ∈ query.methods,
        (lookupFieldOrMethod impl m = none ∨
         lookupFieldOrMethod impl m = some LookupResult.field)) :
    ∃ p ∈ pkgs, ∃ impl ∈ findInterfaceImplementations ifaceType.ifaceMethods p,
      ∃ m ∈ query.methods,
        (Find load query).2 =
          FindOutcome.err (FindErr.methodNotFound m (typeString impl)) ∨
        (Find load query).2 =
          FindOutcome.err (FindErr.declNotFound m (typeString impl)) ∨
        (Find load query).2 =
          FindOutcome.err (FindErr.fieldNotFunc (typeString impl)) := by
  rw [Find_eq_findPackages load query cfg pkgs ifaceType hcfg hload hiface]
  have hfail2 : ∃ p ∈ pkgs,
      ∃ impl ∈ findInterfaceImplementations ifaceType.ifaceMethods p,
      ∃ m ∈ query.methods, ∃ e0,
        findMethodDeclAST impl m (declsOf p) = Except.error e0 := by
    obtain ⟨p, hp, impl, hi, m, hm, hres⟩ := hfail
    rcases hres with hnone | hfield
    · refine ⟨p, hp, impl, hi, m, hm,
        FindErr.methodNotFound m (typeString impl), ?_⟩
      unfold findMethodDeclAST
      rw [hnone]
    · refine ⟨p, hp, impl, hi, m, hm,
        FindErr.fieldNotFunc (typeString impl), ?_⟩
      unfold findMethodDeclAST
      rw [hfield]
  obtain ⟨p, hp, impl, hi, m, hm, e, he, heq⟩ :=
    findPackages_err hund hnopanic hfail2 []
  refine ⟨p, hp, impl, hi, m, hm, ?_⟩
  rcases findMethodDeclAST_error_shape he with h1 | h1 | h1
  · exact Or.inl (h1.2 ▸ heq)
  · exact Or.inr (Or.inr (h1.2 ▸ heq))
  · obtain ⟨pos, hpos, hnone2, hE⟩ := h1
    exact Or.inr (Or.inl (hE ▸ heq))

theorem find_fails_on_unresolvable_method_witness :
    ∃ p ∈ gPkgs,
      ∃ impl ∈ findInterfaceImplementations shapeT.ifaceMethods p,
      ∃ m ∈ gQueryPerim.methods,
        (Find gLoad gQueryPerim).2 =
          FindOutcome.err (FindErr.methodNotFound m (typeString impl)) ∨
        (Find gLoad gQueryPerim).2 =
          FindOutcome.err (FindErr.declNotFound m (typeString impl)) ∨
        (Find gLoad gQueryPerim).2 =
          FindOutcome.err (FindErr.fieldNotFunc (typeString impl)) :=
  find_fails_on_unresolvable_method gLoad gQueryPerim gCfg gPkgs shapeT rfl rfl
    rfl rfl (by decide) (by decide)

/-- C4: every method declaration returned in a successful result is a
receiver-bearing function declaration from the owning package's syntax trees
whose body begins exactly at the resolved method object's defining-scope
position; and if some resolved method's position matches no declaration in
the index, `Find` fails with an error rather than returning a result. -/
theorem find_decl_matches_body_position (load : LoadFn) (query : Query)
    (cfg : Config) (pkgs : List Package) (ifaceType : GoType)
    (hcfg : query.loadConfig = some cfg)
    (hload : load (effectiveConfig cfg) query.packages = Except.ok pkgs)
    (hiface : findInterface pkgs query.interfacePackage query.interfaceName =
      Except.ok ifaceType) :
    (∀ res, (Find load query).2 = FindOutcome.ok res →
      ∀ pkg rt, mapLookup res pkg = some rt →
      ∀ impl rm, mapLookup rt impl = some rm →
      ∀ m d, mapLookup rm m = some d →
        ∃ pos, lookupFieldOrMethod impl m = some (LookupResult.func pos) ∧
          d.hasRecv = true ∧ d.bodyPos = some pos ∧
          ∃ f ∈ pkg.astFiles, AstDecl.funcDecl d ∈ f.decls) ∧
    (ifaceType.underlyingIsInterface = true →
     (∀ p ∈ pkgs, pkgMethodBodyDecls p ≠ none) →
     (∃ p ∈ pkgs,
        ∃ impl ∈ findInterfaceImplementations ifaceType.ifaceMethods p,
        ∃ m ∈ query.methods, ∃ pos,
          lookupFieldOrMethod impl m = some (LookupResult.func pos) ∧
          mapLookup (declsOf p) pos = none) →
     ∃ e, (Find load query).2 = FindOutcome.err e) := by
  constructor
  · intro res hok pkg rt hrt impl rm hrm m d hd
    rw [Find_eq_findPackages load query cfg pkgs ifaceType hcfg hload hiface] at hok
    rcases findPackages_ok_lookup hok hrt with h1 | h1
    · exact Option.noConfusion h1
    · obtain ⟨hmem, hload2⟩ := h1
      cases hd2 : pkgMethodBodyDecls pkg with
      | none =>
        simp only [loadPkgTypeMethodASTs, hd2] at hload2
        exact Option.noConfusion hload2
      | some decls =>
        simp only [loadPkgTypeMethodASTs, hd2, Option.some.injEq] at hload2
        rcases buildTypes_ok_lookup hload2 hrm with h2 | h2
        · exact Option.noConfusion h2
        · rcases buildMethods_ok_lookup h2.2 hd with h3 | h3
          · exact Option.noConfusion h3
          · obtain ⟨pos, hpos, hdl⟩ := findMethodDeclAST_ok_shape h3.2
            obtain ⟨f, hf, hdf, hr, hb⟩ :=
              pkgMethodBodyDecls_entries hd2 pos d (mapLookup_mem hdl)
            exact ⟨pos, hpos, hr, hb, f, hf, hdf⟩
  · intro hund hnopanic hfailpos
    rw [Find_eq_findPackages load query cfg pkgs ifaceType hcfg hload hiface]
    have hfail2 : ∃ p ∈ pkgs,
        ∃ impl ∈ findInterfaceImplementations ifaceType.ifaceMethods p,
        ∃ m ∈ query.methods, ∃ e0,
          findMethodDeclAST impl m (declsOf p) = Except.error e0 := by
      obtain ⟨p, hp, impl, hi, m, hm, pos, hpos, hnone⟩ := hfailpos
      refine ⟨p, hp, impl, hi, m, hm,
        FindErr.declNotFound m (typeString impl), ?_⟩
      simp only [findMethodDeclAST, hpos, hnone]
    obtain ⟨p, hp, impl, hi, m, hm, e, he, heq⟩ :=
      findPackages_err hund hnopanic hfail2 []
    exact ⟨e, heq⟩

theorem find_decl_matches_body_position_witness :
    ∃ pos, lookupFieldOrMethod (TypeForm.value circleT) "Area" =
        some (LookupResult.func pos) ∧
      circleAreaDecl.hasRecv = true ∧ circleAreaDecl.bodyPos = some pos ∧
      ∃ f ∈ shapesPkg.astFiles, AstDecl.funcDecl circleAreaDecl ∈ f.decls :=
  (find_decl_matches_body_position gLoad gQuery gCfg gPkgs shapeT rfl rfl rfl).1
    gRes (by decide) shapesPkg gRtShapes (by decide) (TypeForm.value circleT)
    [("Area", circleAreaDecl)] (by decide) "Area" circleAreaDecl (by decide)

end Findimpls
